import Mathlib

/-!
Verification development for the equipment-parameter ingestion pipeline of
the `fossee` repository (Django backend `api` app plus a desktop client).

The claims under study concern `backend/api/utils.py` (`parse_csv_data`,
`calculate_summary`), `backend/api/models.py` (`Dataset`,
`Dataset.cleanup_old_records`) and `backend/api/views.py` (`upload_csv`,
`delete_dataset`).  Those functions are shallowly embedded below:

* CSV text is tokenized the way `pandas.read_csv` tokenizes the inputs the
  claims exercise: the first nonblank line is the header, cells are split
  on commas, a cell equal to one of the default NA spellings is read as
  missing (`Option.none` encodes the NaN of pandas), short rows are padded
  with missing cells and over-long rows are a tokenizer error.
* Machine floats are modelled as `Option ℚ`, with `none` playing the role
  of NaN; `pandas.to_numeric(errors = coerce)` becomes `parseFloat?`,
  which yields `none` exactly when the cell does not parse as a decimal
  number.  Nonfinite literal spellings (inf) are likewise mapped to
  `none`; no claim distinguishes them from NaN.
* Python exceptions become `Except` errors (`ParseError` collects the
  `ValueError` subclasses the views catch).
* The database table of `Dataset` rows is a list in insertion order.  The
  one behaviour the database leaves open is the relative order of rows
  with equal `uploaded_at` under `ORDER BY uploaded_at DESC`; it is
  modelled by quantifying over every ordering compatible with the Django
  `Meta.ordering` declaration (`IsDbOrdering`).
-/

/-- Equality of `Except` results is decidable componentwise; concrete
computations below are checked with `decide`. -/
instance {ε α : Type} [DecidableEq ε] [DecidableEq α] :
    DecidableEq (Except ε α)
  | .error a, .error b =>
    if h : a = b then .isTrue (by rw [h]) else
      .isFalse (by intro hc; cases hc; exact h rfl)
  | .error _, .ok _ => .isFalse (by intro hc; cases hc)
  | .ok _, .error _ => .isFalse (by intro hc; cases hc)
  | .ok a, .ok b =>
    if h : a = b then .isTrue (by rw [h]) else
      .isFalse (by intro hc; cases hc; exact h rfl)

namespace Fossee

/-! ### UTF-8, modelling `bytes.decode` in `parse_csv_data` -/

/-- UTF-8 encoding of a single unicode scalar value, byte list form. -/
def utf8EncodeCharBytes (c : Char) : List Nat :=
  let v := c.toNat
  if v < 0x80 then [v]
  else if v < 0x800 then [0xC0 + v / 0x40, 0x80 + v % 0x40]
  else if v < 0x10000 then
    [0xE0 + v / 0x1000, 0x80 + v / 0x40 % 0x40, 0x80 + v % 0x40]
  else
    [0xF0 + v / 0x40000, 0x80 + v / 0x1000 % 0x40, 0x80 + v / 0x40 % 0x40,
      0x80 + v % 0x40]

/-- UTF-8 encoding of a string: the byte stream Python would hand to
`parse_csv_data` for this text. -/
def utf8Encode (s : String) : List Nat :=
  s.data.flatMap utf8EncodeCharBytes

/-- One step of strict UTF-8 decoding, as Python `bytes.decode` does it:
read one scalar from the front of the byte list, checking continuation
bytes and rejecting overlong forms, surrogates and out-of-range scalars.
`none` is a decode error (or an empty input). -/
def utf8DecodeStep : List Nat → Option (Char × List Nat)
  | [] => none
  | b :: bs =>
    if b < 0x80 then some (Char.ofNat b, bs)
    else if b < 0xC2 then none
    else if b < 0xE0 then
      match bs with
      | b1 :: bs1 =>
        if 0x80 ≤ b1 ∧ b1 < 0xC0 then
          some (Char.ofNat ((b - 0xC0) * 0x40 + (b1 - 0x80)), bs1)
        else none
      | [] => none
    else if b < 0xF0 then
      match bs with
      | b1 :: b2 :: bs2 =>
        if 0x80 ≤ b1 ∧ b1 < 0xC0 ∧ 0x80 ≤ b2 ∧ b2 < 0xC0 then
          if 0x800 ≤ (b - 0xE0) * 0x1000 + (b1 - 0x80) * 0x40 + (b2 - 0x80) ∧
              ¬ (0xD800 ≤ (b - 0xE0) * 0x1000 + (b1 - 0x80) * 0x40 +
                  (b2 - 0x80) ∧
                (b - 0xE0) * 0x1000 + (b1 - 0x80) * 0x40 + (b2 - 0x80) <
                  0xE000) then
            some (Char.ofNat
              ((b - 0xE0) * 0x1000 + (b1 - 0x80) * 0x40 + (b2 - 0x80)), bs2)
          else none
        else none
      | _ => none
    else if b < 0xF5 then
      match bs with
      | b1 :: b2 :: b3 :: bs3 =>
        if 0x80 ≤ b1 ∧ b1 < 0xC0 ∧ 0x80 ≤ b2 ∧ b2 < 0xC0 ∧ 0x80 ≤ b3 ∧
            b3 < 0xC0 then
          if 0x10000 ≤ (b - 0xF0) * 0x40000 + (b1 - 0x80) * 0x1000 +
              (b2 - 0x80) * 0x40 + (b3 - 0x80) ∧
              (b - 0xF0) * 0x40000 + (b1 - 0x80) * 0x1000 +
                (b2 - 0x80) * 0x40 + (b3 - 0x80) < 0x110000 then
            some (Char.ofNat ((b - 0xF0) * 0x40000 + (b1 - 0x80) * 0x1000 +
              (b2 - 0x80) * 0x40 + (b3 - 0x80)), bs3)
          else none
        else none
      | _ => none
    else none

/-- Repeated decode steps, with explicit fuel (one unit per consumed
leading byte keeps the recursion structural; the wrapper below passes the
list length, which always suffices). -/
def utf8DecodeAux : Nat → List Nat → Option (List Char)
  | _, [] => some []
  | 0, _ :: _ => none
  | fuel + 1, b :: bs =>
    match utf8DecodeStep (b :: bs) with
    | none => none
    | some (c, rest) => (utf8DecodeAux fuel rest).map (fun cs => c :: cs)

/-- Strict UTF-8 decoding of a whole byte list. -/
def utf8DecodeChars (l : List Nat) : Option (List Char) :=
  utf8DecodeAux l.length l

/-- Decoding a byte list to a string, Python `bytes.decode("utf-8")`. -/
def utf8Decode (b : List Nat) : Option String :=
  (utf8DecodeChars b).map (fun cs => String.mk cs)

/-! ### The input of `parse_csv_data` -/

/-- The `file_content` argument of `parse_csv_data`: Django hands the view
raw bytes, tests may hand it text; the function accepts both. -/
inductive FileContent
  | bytes (b : List Nat)
  | text (s : String)

/-- The `ValueError` subclasses raised out of `parse_csv_data` and caught
by `upload_csv`: `UnicodeDecodeError` from `bytes.decode`,
`pandas.errors.EmptyDataError` and `ParserError` from `read_csv`, and the
explicit `ValueError` for missing required columns. -/
inductive ParseError
  | unicodeDecodeError
  | emptyData
  | tokenizeError
  | missingColumns (cols : List String)
deriving Repr, DecidableEq

/-! ### CSV tokenization, modelling `pandas.read_csv` -/

/-- Splitting a character list on a separator character; the pieces keep
their order and do not contain the separator. -/
def splitOnChar (sep : Char) : List Char → List (List Char)
  | [] => [[]]
  | c :: cs =>
    match splitOnChar sep cs with
    | [] => [[]]
    | r :: rs => if c = sep then [] :: r :: rs else (c :: r) :: rs

/-- The nonblank lines of the input, in order; `read_csv` skips blank
lines (`skip_blank_lines = True`). -/
def csvLines (content : String) : List (List Char) :=
  (splitOnChar '\n' content.data).filter (fun l => decide (l ≠ []))

/-- The cells of one line, in order. -/
def csvCells (line : List Char) : List String :=
  (splitOnChar ',' line).map String.mk

/-- The cell spellings `read_csv` reads as missing (NaN) by default. -/
def defaultNaValues : List String :=
  ["", "#N/A", "#N/A N/A", "#NA", "-1.#IND", "-1.#QNB", "-NaN", "-nan",
    "1.#IND", "1.#QNB", "<NA>", "N/A", "NA", "NULL", "NaN", "None", "n/a",
    "nan", "null"]

/-- Reading one cell: missing spellings become `none` (NaN), every other
cell is kept verbatim as a string. -/
def readCell (s : String) : Option String :=
  if defaultNaValues.contains s then none else some s

/-- A short row is padded with missing cells up to the header width. -/
def padRow (n : Nat) (r : List (Option String)) : List (Option String) :=
  r ++ List.replicate (n - r.length) none

/-- The dataframe produced by `read_csv`: the header labels and the rows,
each row one `Option String` cell per column, in source order. -/
structure Frame where
  header : List String
  rows : List (List (Option String))
deriving Repr, DecidableEq

/-- Model of `pd.read_csv(StringIO(file_content))`: first nonblank line is
the header, remaining nonblank lines are data rows; an empty input raises
`EmptyDataError`, a row wider than the header raises `ParserError`. -/
def read_csv (content : String) : Except ParseError Frame :=
  match csvLines content with
  | [] => .error .emptyData
  | h :: rest =>
    let header := csvCells h
    let raw := rest.map (fun l => (csvCells l).map readCell)
    if raw.any (fun r => decide (header.length < r.length)) then
      .error .tokenizeError
    else .ok ⟨header, raw.map (padRow header.length)⟩

/-- The cell of a row under a given column label, `none` when the label is
absent from the header. -/
def getCol (header : List String) (row : List (Option String))
    (c : String) : Option String :=
  match header.findIdx? (fun x => x == c) with
  | some i => row.getD i none
  | none => none

/-! ### Numeric coercion, modelling `pandas.to_numeric(errors=coerce)` -/

/-- Whitespace stripping as Python float parsing does before reading the
number. -/
def trimWs (l : List Char) : List Char :=
  ((l.dropWhile Char.isWhitespace).reverse.dropWhile Char.isWhitespace).reverse

/-- The natural number denoted by a digit list. -/
def digitsVal (l : List Char) : Nat :=
  l.foldl (fun a c => a * 10 + (c.toNat - 48)) 0

/-- The optional exponent suffix of a float literal applied to a mantissa:
empty rest keeps the mantissa, `e`/`E` with a signed digit string scales
it, anything else fails. -/
def applyExp (m : ℚ) (rest : List Char) : Option ℚ :=
  match rest with
  | [] => some m
  | e :: r =>
    if e = 'e' ∨ e = 'E' then
      let neg : Bool := match r with | '-' :: _ => true | _ => false
      let r1 : List Char := match r with
        | '+' :: t => t
        | '-' :: t => t
        | _ => r
      let ds := r1.takeWhile Char.isDigit
      let r2 := r1.dropWhile Char.isDigit
      if ds = [] ∨ r2 ≠ [] then none
      else if neg then some (m / (10 : ℚ) ^ digitsVal ds)
      else some (m * (10 : ℚ) ^ digitsVal ds)
    else none

/-- Coercion of one cell to a number, `pd.to_numeric(errors = coerce)` on
a single value: optional sign, digits with an optional decimal point and
an optional exponent; anything else (hence also the nonfinite literal
spellings) becomes NaN, that is `none`. -/
def parseFloat? (s : String) : Option ℚ :=
  let l := trimWs s.data
  let sgn : ℚ := match l with | '-' :: _ => -1 | _ => 1
  let l1 : List Char := match l with
    | '+' :: t => t
    | '-' :: t => t
    | _ => l
  let ip := l1.takeWhile Char.isDigit
  let r1 := l1.dropWhile Char.isDigit
  match r1 with
  | '.' :: r2 =>
    let fp := r2.takeWhile Char.isDigit
    let r3 := r2.dropWhile Char.isDigit
    if ip = [] ∧ fp = [] then none
    else
      applyExp
        (sgn * ((digitsVal ip : ℚ) +
          (digitsVal fp : ℚ) / (10 : ℚ) ^ fp.length)) r3
  | _ => if ip = [] then none else applyExp (sgn * (digitsVal ip : ℚ)) r1

/-! ### `parse_csv_data` -/

/-- One entry of the `data_list` built by `df.to_dict(records)`, projected
to the five required columns: the two text cells and the three numeric
cells after coercion, where `none` is the NaN that
`to_numeric(errors = coerce)` leaves behind. -/
structure Record where
  name : String
  type : String
  flowrate : Option ℚ
  pressure : Option ℚ
  temperature : Option ℚ
deriving Repr, DecidableEq

/-- The `required_columns` list of `parse_csv_data`. -/
def requiredColumns : List String :=
  ["Equipment Name", "Type", "Flowrate", "Pressure", "Temperature"]

/-- Decoding the `file_content` argument: bytes are decoded as UTF-8
(raising `UnicodeDecodeError` on invalid bytes), text is passed through. -/
def decodeContent : FileContent → Except ParseError String
  | .text s => .ok s
  | .bytes b =>
    match utf8Decode b with
    | some s => .ok s
    | none => .error .unicodeDecodeError

/-- The `df.dropna(subset=required_columns)` row predicate: the row is
kept exactly when every required column holds a present (non-NA) cell. -/
def rowComplete (header : List String) (row : List (Option String)) : Bool :=
  requiredColumns.all (fun c => (getCol header row c).isSome)

/-- Building one output record from a kept row: text cells verbatim,
numeric cells coerced by `to_numeric(errors = coerce)`. -/
def toRecord (header : List String) (row : List (Option String)) : Record :=
  { name := (getCol header row "Equipment Name").getD ""
    type := (getCol header row "Type").getD ""
    flowrate := (getCol header row "Flowrate").bind parseFloat?
    pressure := (getCol header row "Pressure").bind parseFloat?
    temperature := (getCol header row "Temperature").bind parseFloat? }

/-- The column check and row cleaning stage of `parse_csv_data`: fail
when a required column is missing from the header, drop the rows with a
missing required cell, then coerce the three numeric columns with
`errors = coerce` and build the output records. -/
def validateAndClean (f : Frame) : Except ParseError (List Record) :=
  let missing := requiredColumns.filter (fun c => ! f.header.contains c)
  if missing ≠ [] then .error (.missingColumns missing)
  else .ok ((f.rows.filter (rowComplete f.header)).map (toRecord f.header))

/-- The text path of `parse_csv_data`: read the CSV, then validate. -/
def parseCsvText (s : String) : Except ParseError (List Record) :=
  match read_csv s with
  | .error e => .error e
  | .ok f => validateAndClean f

/-- Model of `parse_csv_data` (`backend/api/utils.py`): decode bytes if
needed, read the CSV, then validate and clean.  The returned list stands
for both components of the Python result, since `data_list` and the
cleaned `df` hold exactly the same rows. -/
def parse_csv_data (fc : FileContent) : Except ParseError (List Record) :=
  match decodeContent fc with
  | .error e => .error e
  | .ok s => parseCsvText s

/-! ### Summary statistics, modelling `calculate_summary` -/

/-- Rounding to the nearest integer with ties to even, the rounding of
Python `round` (the model works in exact rationals; the float-induced
deviations of `round` on binary floats are below the precision any claim
inspects). -/
def roundHalfEven (q : ℚ) : ℤ :=
  let f := ⌊q⌋
  let frac := q - (f : ℚ)
  if frac < 1/2 then f
  else if 1/2 < frac then f + 1
  else if f % 2 = 0 then f else f + 1

/-- Python `round(x, 2)`. -/
def round2 (q : ℚ) : ℚ :=
  (roundHalfEven (q * 100) : ℚ) / 100

/-- Nearest-integer square root at two-decimal precision:
`round(sqrt q, 2)` for a nonnegative rational, computed with the integer
square root.  Exactly which way a value within one unit in the last place
of an irrational square root rounds is irrelevant here: no claim inspects
a standard-deviation value, only whether it is defined. -/
def sqrtRound2 (q : ℚ) : ℚ :=
  if q ≤ 0 then 0
  else (((Nat.sqrt (40000 * q.num.toNat * q.den) + q.den) / (2 * q.den) : ℕ) : ℚ) / 100

/-- The values of one numeric column that are not NaN; every pandas
aggregation below skips NaN entries (`skipna = True`). -/
def colVals (rs : List Record) (f : Record → Option ℚ) : List ℚ :=
  rs.filterMap f

/-- Model of `round(series.mean(), 2)`: NaN (`none`) when no value
remains after skipping NaN, the rounded arithmetic mean otherwise. -/
def meanAgg (rs : List Record) (f : Record → Option ℚ) : Option ℚ :=
  match colVals rs f with
  | [] => none
  | v => some (round2 (v.sum / (v.length : ℚ)))

/-- Model of `round(series.min(), 2)`. -/
def minAgg (rs : List Record) (f : Record → Option ℚ) : Option ℚ :=
  match colVals rs f with
  | [] => none
  | x :: xs => some (round2 (xs.foldl min x))

/-- Model of `round(series.max(), 2)`. -/
def maxAgg (rs : List Record) (f : Record → Option ℚ) : Option ℚ :=
  match colVals rs f with
  | [] => none
  | x :: xs => some (round2 (xs.foldl max x))

/-- The sample variance of a value list (denominator `n - 1`). -/
def sampleVar (v : List ℚ) : ℚ :=
  let n := v.length
  let m := v.sum / (n : ℚ)
  (v.map (fun x => (x - m) ^ 2)).sum / ((n : ℚ) - 1)

/-- Model of `round(series.std(), 2)`: pandas uses the sample standard
deviation (`ddof = 1`), whose `0 / 0` on fewer than two values is the
float NaN, modelled by `none`; otherwise the rounded square root of the
sample variance. -/
def stdAgg (rs : List Record) (f : Record → Option ℚ) : Option ℚ :=
  let v := colVals rs f
  if v.length < 2 then none else some (sqrtRound2 (sampleVar v))

/-- One of the four numeric blocks of the summary dict: a value per
numeric column, `none` for the NaN of pandas. -/
structure FieldStats where
  flowrate : Option ℚ
  pressure : Option ℚ
  temperature : Option ℚ
deriving Repr, DecidableEq

/-- The dict returned by `calculate_summary`.  `type_distribution` is the
`value_counts` map as label/count pairs (the model lists labels in first
appearance order; the Python dict ordering is not observable through any
claim) and `equipment_types` is `Series.unique`, which keeps first
appearance order. -/
structure Summary where
  total_count : Nat
  averages : FieldStats
  minimums : FieldStats
  maximums : FieldStats
  std_deviations : FieldStats
  type_distribution : List (String × Nat)
  equipment_types : List String
deriving Repr, DecidableEq

/-- Model of `calculate_summary` (`backend/api/utils.py`): the DataFrame
argument holds exactly the record rows, so the model takes the record
list. -/
def calculate_summary (rs : List Record) : Summary :=
  { total_count := rs.length
    averages :=
      { flowrate := meanAgg rs Record.flowrate
        pressure := meanAgg rs Record.pressure
        temperature := meanAgg rs Record.temperature }
    minimums :=
      { flowrate := minAgg rs Record.flowrate
        pressure := minAgg rs Record.pressure
        temperature := minAgg rs Record.temperature }
    maximums :=
      { flowrate := maxAgg rs Record.flowrate
        pressure := maxAgg rs Record.pressure
        temperature := maxAgg rs Record.temperature }
    std_deviations :=
      { flowrate := stdAgg rs Record.flowrate
        pressure := stdAgg rs Record.pressure
        temperature := stdAgg rs Record.temperature }
    type_distribution :=
      ((rs.map Record.type).eraseDups).map
        (fun t => (t, (rs.map Record.type).count t))
    equipment_types := (rs.map Record.type).eraseDups }

/-! ### The `Dataset` table and the retention store

The database table is modelled as a list in insertion order.  Primary
keys are autoincremented integers; `uploaded_at` is the `auto_now_add`
timestamp, modelled as a natural number.  The Django `Meta.ordering`
declaration `[-uploaded_at]` fixes the query order only up to the
relative order of equal timestamps, so every query-order-dependent
operation is stated for an arbitrary list compatible with that
declaration (`IsDbOrdering`). -/

/-- One row of the `Dataset` table (`backend/api/models.py`), with
`raw_data` as the record list it deserializes to and `summary` as the
summary dict it deserializes to. -/
structure Dataset where
  id : Nat
  name : String
  uploadedAt : Nat
  raw_data : List Record
  summary : Summary
  record_count : Nat
deriving Repr, DecidableEq

/-- The stored table, in insertion order. -/
abbrev Store := List Dataset

/-- The next autoincremented primary key: one more than the largest key
in the table. -/
def nextId (store : Store) : Nat :=
  (store.map Dataset.id).foldl max 0 + 1

/-- A list enumeration of the table compatible with
`Meta.ordering = [-uploaded_at]`: a permutation of the table that is
weakly descending in `uploaded_at`.  Ties are left open, as the database
leaves them open. -/
def IsDbOrdering (store l : List Dataset) : Prop :=
  store.Perm l ∧ l.Pairwise (fun a b => b.uploadedAt ≤ a.uploadedAt)

/-- Model of `Dataset.cleanup_old_records(keep_count)`: when more than
`keep_count` rows exist, the first `keep_count` ids of the query order
`l` are kept and every other row is deleted.  The surviving rows are
returned in insertion order (deletion does not reorder a table). -/
def cleanup_old_records (keep_count : Nat) (store : Store)
    (l : List Dataset) : Store :=
  if keep_count < store.length then
    let ids_to_keep := (l.take keep_count).map Dataset.id
    store.filter (fun d => decide (d.id ∈ ids_to_keep))
  else store

/-- Model of `GET /api/history/`: the first five rows in query order. -/
def list_recent (n : Nat) (l : List Dataset) : List Dataset :=
  l.take n

/-- One upload request: the posted file name and content, and the wall
clock time the database will stamp on the created row. -/
structure UploadEv where
  filename : String
  content : FileContent
  now : Nat

/-- Python `str.endswith`, used by the filename check of `upload_csv`. -/
def pyEndsWith (s suffix : String) : Bool :=
  suffix.data.isSuffixOf s.data

/-- The `try` block of `upload_csv` (`backend/api/views.py`) up to and
including `Dataset.objects.create`: reject a non-csv filename, parse,
summarize, then append the new row.  A raised `ValueError` leaves the
table untouched (the view returns 400 before anything is created). -/
def upload_ingest (store : Store) (ev : UploadEv) :
    Except ParseError (Dataset × Store) :=
  if pyEndsWith ev.filename ".csv" = false then .error .tokenizeError
  else
    match parse_csv_data ev.content with
    | .error e => .error e
    | .ok records =>
      let ds : Dataset :=
        { id := nextId store
          name := ev.filename
          uploadedAt := ev.now
          raw_data := records
          summary := calculate_summary records
          record_count := records.length }
      .ok (ds, store ++ [ds])

/-- A run of `upload_csv` requests against the store: each step either
fails (table unchanged, no dataset recorded) or creates a row and then
runs `cleanup_old_records(keep_count = 5)` under some database ordering
of the post-insert table.  The third index accumulates the created
datasets in creation order. -/
inductive UploadTrace : Store → List UploadEv → List Dataset → Store → Prop
  | nil (s : Store) : UploadTrace s [] [] s
  | consFail {s : Store} {ev : UploadEv} {evs : List UploadEv}
      {created : List Dataset} {s' : Store} (e : ParseError)
      (hfail : upload_ingest s ev = .error e)
      (htail : UploadTrace s evs created s') :
      UploadTrace s (ev :: evs) created s'
  | consOk {s : Store} {ev : UploadEv} {evs : List UploadEv}
      {created : List Dataset} {s' : Store} (d : Dataset) (s1 : Store)
      (l : List Dataset)
      (hok : upload_ingest s ev = .ok (d, s1))
      (hord : IsDbOrdering s1 l)
      (htail : UploadTrace (cleanup_old_records 5 s1 l) evs created s') :
      UploadTrace s (ev :: evs) (d :: created) s'

/-- The outcome of `DELETE /api/dataset/(pk)/delete/`: HTTP 204 with the
success message, or HTTP 404 with the not-found error. -/
inductive DeleteResult
  | deleted
  | notFound
deriving Repr, DecidableEq

/-- Model of `delete_dataset` (`backend/api/views.py`): look the row up
by primary key; delete it when found, report not-found otherwise. -/
def delete_dataset (store : Store) (pk : Nat) : DeleteResult × Store :=
  match store.find? (fun d => d.id == pk) with
  | some _ => (.deleted, store.filter (fun d => d.id != pk))
  | none => (.notFound, store)

/-- The last `n` elements of a list, in order. -/
def lastN (n : Nat) (l : List α) : List α :=
  l.drop (l.length - n)

/-! ### Concrete inputs used by witnesses and counterexamples -/

/-- A CSV with all five required columns whose one data row has a
flowrate that does not parse as a number. -/
def c1Csv : String :=
  "Equipment Name,Type,Flowrate,Pressure,Temperature\nPump1,Pump,abc,2,25"

/-- A CSV lacking the Pressure column. -/
def c2Csv : String :=
  "Equipment Name,Type,Flowrate,Temperature\nPump1,Pump,10,25"

/-- The frame `read_csv` produces for `c2Csv`. -/
def c2Frame : Frame :=
  ⟨["Equipment Name", "Type", "Flowrate", "Temperature"],
    [[some "Pump1", some "Pump", some "10", some "25"]]⟩

/-- An upload request carrying `c2Csv`. -/
def c2Ev : UploadEv := ⟨"data.csv", .text c2Csv, 3⟩

/-- A well-formed CSV with two clean rows (the example of the spec). -/
def c5Csv : String :=
  "Equipment Name,Type,Flowrate,Pressure,Temperature\nPump1,Pump,10,2,25\nPump2,Pump,20,4,35"

/-- The records parsed from `c5Csv`. -/
def c5Records : List Record :=
  [⟨"Pump1", "Pump", some 10, some 2, some 25⟩,
    ⟨"Pump2", "Pump", some 20, some 4, some 35⟩]

/-- An upload request carrying `c5Csv`. -/
def c5Ev : UploadEv := ⟨"plant.csv", .text c5Csv, 1⟩

/-- A stored dataset with a given primary key and timestamp (the payload
content is irrelevant to retention and deletion). -/
def dsAt (i t : Nat) : Dataset :=
  ⟨i, "data.csv", t, [], calculate_summary [], 0⟩

/-- A store with two datasets. -/
def c7Store : Store := [dsAt 1 10, dsAt 2 20]

/-- A store with six datasets at distinct increasing timestamps. -/
def c4Store : Store :=
  [dsAt 1 10, dsAt 2 20, dsAt 3 30, dsAt 4 40, dsAt 5 50, dsAt 6 60]

/-- A CSV whose name cell carries leading and trailing spaces. -/
def c8Csv : String :=
  "Equipment Name,Type,Flowrate,Pressure,Temperature\n Pump1 ,Pump,10,2,25"

/-- The frame `read_csv` produces for `c8Csv`. -/
def c8Frame : Frame :=
  ⟨requiredColumns,
    [[some " Pump1 ", some "Pump", some "10", some "2", some "25"]]⟩

/-- A one-row CSV used to build upload runs. -/
def tieCsv : String :=
  "Equipment Name,Type,Flowrate,Pressure,Temperature\nP,Pump,1,1,1"

/-- The record parsed from the data row of `tieCsv`. -/
def tieRecord : Record := ⟨"P", "Pump", some 1, some 1, some 1⟩

/-- An upload of `tieCsv` stamped at time 0; repeated uploads of it all
share one timestamp. -/
def tieEv : UploadEv := ⟨"a.csv", .text tieCsv, 0⟩

/-- The dataset the i-th tied upload creates. -/
def tieDs (i : Nat) : Dataset :=
  ⟨i, "a.csv", 0, [tieRecord], calculate_summary [tieRecord], 1⟩

/-- Six uploads, all stamped at time 0. -/
def c3Events : List UploadEv := List.replicate 6 tieEv

/-- The datasets created by the six tied uploads. -/
def c3Created : List Dataset :=
  [tieDs 1, tieDs 2, tieDs 3, tieDs 4, tieDs 5, tieDs 6]

/-- A final store the six tied uploads can leave behind: the sixth and
most recent dataset has been evicted. -/
def c3Final : Store := [tieDs 1, tieDs 2, tieDs 3, tieDs 4, tieDs 5]

/-- An upload of `tieCsv` stamped at time i. -/
def incEv (i : Nat) : UploadEv := ⟨"a.csv", .text tieCsv, i⟩

/-- The dataset the upload stamped at time i creates when timestamps
increase strictly. -/
def incDs (i : Nat) : Dataset :=
  ⟨i, "a.csv", i, [tieRecord], calculate_summary [tieRecord], 1⟩

/-- Six uploads at strictly increasing timestamps. -/
def c3wEvents : List UploadEv :=
  [incEv 1, incEv 2, incEv 3, incEv 4, incEv 5, incEv 6]

/-- The datasets created by the six strictly-timestamped uploads. -/
def c3wCreated : List Dataset :=
  [incDs 1, incDs 2, incDs 3, incDs 4, incDs 5, incDs 6]

/-- The store the six strictly-timestamped uploads leave behind. -/
def c3wFinal : Store := [incDs 2, incDs 3, incDs 4, incDs 5, incDs 6]

/-! ## Theorems

General helper lemmas come first, then one theorem per claim (with its
witness or counterexample where applicable). -/

/-- The initial accumulator bounds a maximum fold from below. -/
theorem foldl_max_init (l : List Nat) (a : Nat) : a ≤ l.foldl max a := by
  induction l generalizing a with
  | nil => exact Nat.le_refl a
  | cons b t ih => exact Nat.le_trans (Nat.le_max_left a b) (ih (max a b))

/-- Every member of a list bounds its maximum fold from below. -/
theorem mem_le_foldl_max :
    ∀ (l : List Nat) (a x : Nat), x ∈ l → x ≤ l.foldl max a := by
  intro l
  induction l with
  | nil => intro a x hx; cases hx
  | cons b t ih =>
    intro a x hx
    rcases List.mem_cons.mp hx with hxb | hxt
    · subst hxb
      exact Nat.le_trans (Nat.le_max_right a x) (foldl_max_init t _)
    · exact ih (max a b) x hxt

/-- Every stored id is below the next autoincremented id. -/
theorem id_lt_nextId {store : Store} {d : Dataset} (hd : d ∈ store) :
    d.id < nextId store := by
  have h := mem_le_foldl_max (store.map Dataset.id) 0 d.id
    (List.mem_map_of_mem Dataset.id hd)
  unfold nextId
  omega

/-- A strictly descending list is the unique weakly descending
arrangement of its members: any weakly descending permutation of it is
the list itself. -/
theorem perm_desc_strict_unique :
    ∀ (t l : List Dataset),
      t.Pairwise (fun a b => b.uploadedAt < a.uploadedAt) →
      l.Pairwise (fun a b => b.uploadedAt ≤ a.uploadedAt) →
      t.Perm l → t = l := by
  intro t
  induction t with
  | nil =>
    intro l _ _ hp
    exact (hp.symm.eq_nil).symm
  | cons a t' ih =>
    intro l hts hls hp
    cases l with
    | nil => cases hp.eq_nil
    | cons b l' =>
      have hbmem : b ∈ a :: t' := hp.mem_iff.mpr (List.mem_cons_self b l')
      rcases List.mem_cons.mp hbmem with hba | hbt
      · subst hba
        have ht' := (List.pairwise_cons.mp hts).2
        have hl' := (List.pairwise_cons.mp hls).2
        rw [ih l' ht' hl' hp.cons_inv]
      · exfalso
        have hblt : b.uploadedAt < a.uploadedAt :=
          (List.pairwise_cons.mp hts).1 b hbt
        have hamem : a ∈ b :: l' := hp.mem_iff.mp (List.mem_cons_self a t')
        rcases List.mem_cons.mp hamem with hab | hal
        · rw [hab] at hblt
          omega
        · have : a.uploadedAt ≤ b.uploadedAt :=
            (List.pairwise_cons.mp hls).1 a hal
          omega

/-- When the stored timestamps are strictly increasing in insertion
order, the database ordering is forced: it is the reversed table. -/
theorem db_ordering_eq_reverse {s l : List Dataset}
    (hts : s.Pairwise (fun a b => a.uploadedAt < b.uploadedAt))
    (hord : IsDbOrdering s l) : l = s.reverse := by
  have h1 : s.reverse.Pairwise (fun a b => b.uploadedAt < a.uploadedAt) :=
    List.pairwise_reverse.mpr hts
  have hperm : s.reverse.Perm l := (List.reverse_perm s).trans hord.1
  exact (perm_desc_strict_unique _ _ h1 hord.2 hperm).symm

/-- Length of a last-n suffix. -/
theorem lastN_length (n : Nat) (l : List α) :
    (lastN n l).length = min n l.length := by
  simp only [lastN, List.length_drop]
  omega

/-- A last-n suffix is a sublist. -/
theorem lastN_sublist (n : Nat) (l : List α) : (lastN n l).Sublist l :=
  List.drop_sublist _ _

/-- A list short enough is its own last-n suffix. -/
theorem lastN_of_le {n : Nat} {l : List α} (h : l.length ≤ n) :
    lastN n l = l := by
  have h0 : l.length - n = 0 := by omega
  simp [lastN, h0]

/-- Peeling the appended element off a last-n suffix. -/
theorem lastN_append_one {n : Nat} (hn : 1 ≤ n) (l : List α) (a : α) :
    lastN n (l ++ [a]) = lastN (n - 1) l ++ [a] := by
  have h1 : l.length + 1 - n = l.length - (n - 1) := by omega
  have h2 : l.length + 1 - n - l.length = 0 := by omega
  simp [lastN, List.drop_append_eq_append_drop, List.length_append, h1, h2]

/-- Nested last-n suffixes collapse to the smaller one. -/
theorem lastN_lastN_of_le {m n : Nat} (h : m ≤ n) (l : List α) :
    lastN m (lastN n l) = lastN m l := by
  simp only [lastN, List.drop_drop, List.length_drop]
  congr 1
  omega

/-- Filtering an appended pair of lists for ids of the second part
returns the second part, when ids do not repeat. -/
theorem filter_ids_append (A B : List Dataset)
    (hnd : ((A ++ B).map Dataset.id).Nodup) :
    (A ++ B).filter (fun d => decide (d.id ∈ B.map Dataset.id)) = B := by
  rw [List.filter_append]
  have hmap : (A.map Dataset.id ++ B.map Dataset.id).Nodup := by
    rw [← List.map_append]; exact hnd
  have hdis := List.disjoint_of_nodup_append hmap
  have hA : A.filter (fun d => decide (d.id ∈ B.map Dataset.id)) = [] := by
    rw [List.filter_eq_nil_iff]
    intro a ha hc
    exact hdis (List.mem_map_of_mem Dataset.id ha) (of_decide_eq_true hc)
  have hB : B.filter (fun d => decide (d.id ∈ B.map Dataset.id)) = B := by
    rw [List.filter_eq_self]
    intro b hb
    exact decide_eq_true (List.mem_map_of_mem Dataset.id hb)
  rw [hA, hB, List.nil_append]

/-- Strictly increasing ids make the id column duplicate-free. -/
theorem ids_nodup_of_pairwise {s : List Dataset}
    (hid : s.Pairwise (fun a b => a.id < b.id)) :
    (s.map Dataset.id).Nodup :=
  (List.pairwise_map.mpr hid).imp Nat.ne_of_lt

/-- The cleanup survivors form a sublist of the table. -/
theorem cleanup_sublist (keep : Nat) (store : Store) (l : List Dataset) :
    (cleanup_old_records keep store l).Sublist store := by
  unfold cleanup_old_records
  split
  · exact List.filter_sublist store
  · exact List.Sublist.refl store

/-- Under strictly increasing timestamps and ids, cleanup keeps exactly
the newest five rows, in insertion order. -/
theorem cleanup_strict {s1 l : List Dataset}
    (hts : s1.Pairwise (fun a b => a.uploadedAt < b.uploadedAt))
    (hid : s1.Pairwise (fun a b => a.id < b.id))
    (hord : IsDbOrdering s1 l) :
    cleanup_old_records 5 s1 l = lastN 5 s1 := by
  by_cases h5 : 5 < s1.length
  · have hl : l = s1.reverse := db_ordering_eq_reverse hts hord
    set A := s1.take (s1.length - 5) with hA
    set B := lastN 5 s1 with hB
    have hAB : A ++ B = s1 := List.take_append_drop (s1.length - 5) s1
    have hBlen : B.length = 5 := by
      rw [hB, lastN_length]; omega
    have h5B : B.reverse.length = 5 := by
      rw [List.length_reverse]; exact hBlen
    have htake : l.take 5 = B.reverse := by
      rw [hl, ← hAB, List.reverse_append, ← h5B]
      exact List.take_left _ _
    unfold cleanup_old_records
    rw [if_pos h5, htake]
    have hcong :
        s1.filter (fun d => decide (d.id ∈ (B.reverse.map Dataset.id))) =
        s1.filter (fun d => decide (d.id ∈ B.map Dataset.id)) := by
      apply List.filter_congr
      intro d _
      simp [← List.map_reverse, List.mem_reverse]
    rw [hcong, ← hAB]
    have hnd : ((A ++ B).map Dataset.id).Nodup := by
      rw [hAB]; exact ids_nodup_of_pairwise hid
    exact filter_ids_append _ _ hnd
  · unfold cleanup_old_records
    rw [if_neg h5]
    exact (lastN_of_le (by omega)).symm

/-- Inversion of a successful ingestion: the created dataset gets the
next id and the event timestamp, and is appended to the table. -/
theorem upload_ingest_ok {store : Store} {ev : UploadEv} {d : Dataset}
    {s1 : Store} (h : upload_ingest store ev = .ok (d, s1)) :
    d.id = nextId store ∧ d.uploadedAt = ev.now ∧ s1 = store ++ [d] ∧
      (∃ records, parse_csv_data ev.content = .ok records ∧
        d.raw_data = records ∧ d.summary = calculate_summary records ∧
        d.record_count = records.length) := by
  unfold upload_ingest at h
  split at h
  · cases h
  · cases hp : parse_csv_data ev.content with
    | error e => rw [hp] at h; cases h
    | ok records =>
      rw [hp] at h
      injection h with h1
      injection h1 with hd hs1
      subst hd
      exact ⟨rfl, rfl, hs1.symm ▸ rfl, records, rfl, rfl, rfl, rfl⟩

/-- A failed ingestion leaves the table untouched (inversion). -/
theorem upload_ingest_error {store : Store} {ev : UploadEv}
    {e : ParseError} (hcsv : pyEndsWith ev.filename ".csv" = true)
    (hparse : parse_csv_data ev.content = .error e) :
    upload_ingest store ev = .error e := by
  unfold upload_ingest
  rw [hcsv]
  simp [hparse]

/-- When the table already exceeds the cap, cleanup leaves at most five
rows (the ids are assumed unique, as primary keys are). -/
theorem cleanup_keep5_length {s1 l : List Dataset}
    (hnd : (s1.map Dataset.id).Nodup) (hord : IsDbOrdering s1 l)
    (h5 : 5 < s1.length) :
    (cleanup_old_records 5 s1 l).length ≤ 5 := by
  set p : Dataset → Bool :=
    fun d => decide (d.id ∈ (l.take 5).map Dataset.id) with hp
  have hpl : (s1.filter p).length = (l.filter p).length :=
    (hord.1.filter p).length_eq
  have hndl : (l.map Dataset.id).Nodup :=
    (hord.1.map Dataset.id).nodup_iff.mp hnd
  have htd : l.take 5 ++ l.drop 5 = l := List.take_append_drop 5 l
  have hdrop : (l.drop 5).filter p = [] := by
    rw [List.filter_eq_nil_iff]
    intro e hedrop hpe
    have hidmem : e.id ∈ (l.take 5).map Dataset.id := of_decide_eq_true hpe
    have hmap : ((l.take 5).map Dataset.id ++ (l.drop 5).map Dataset.id).Nodup := by
      rw [← List.map_append, htd]; exact hndl
    exact List.disjoint_of_nodup_append hmap hidmem
      (List.mem_map_of_mem Dataset.id hedrop)
  have hfl : (l.filter p).length ≤ 5 := by
    rw [← htd, List.filter_append, hdrop, List.append_nil]
    calc ((l.take 5).filter p).length ≤ (l.take 5).length :=
          List.length_filter_le p (l.take 5)
      _ ≤ 5 := by rw [List.length_take]; omega
  have hfin : (s1.filter p).length ≤ 5 := by omega
  unfold cleanup_old_records
  rw [if_pos h5]
  exact hfin

/-- Along any upload run, ids stay strictly increasing and the table
never exceeds five rows (no assumption on timestamps). -/
theorem trace_bound {s : Store} {evs : List UploadEv}
    {created : List Dataset} {s' : Store}
    (h : UploadTrace s evs created s') :
    s.Pairwise (fun a b => a.id < b.id) → s.length ≤ 5 →
    s'.Pairwise (fun a b => a.id < b.id) ∧ s'.length ≤ 5 := by
  induction h with
  | nil s => exact fun h1 h2 => ⟨h1, h2⟩
  | consFail e hfail htail ih => exact ih
  | consOk d s1 l hok hord htail ih =>
    intro hid hlen
    obtain ⟨hdid, -, hs1, -⟩ := upload_ingest_ok hok
    have hid1 : s1.Pairwise (fun a b => a.id < b.id) := by
      rw [hs1]
      rw [List.pairwise_append]
      refine ⟨hid, List.pairwise_singleton _ _, ?_⟩
      intro a ha b hb
      rw [List.mem_singleton.mp hb, hdid]
      exact id_lt_nextId ha
    have hidc : (cleanup_old_records 5 s1 l).Pairwise
        (fun a b => a.id < b.id) :=
      List.Pairwise.sublist (cleanup_sublist 5 s1 l) hid1
    have hlenc : (cleanup_old_records 5 s1 l).length ≤ 5 := by
      by_cases h5 : 5 < s1.length
      · exact cleanup_keep5_length (ids_nodup_of_pairwise hid1) hord h5
      · unfold cleanup_old_records
        rw [if_neg h5]
        omega
    exact ih hidc hlenc

/-- Main retention invariant: starting from the table left by a history
`H` of creations (the last-five suffix of `H`), a further upload run with
globally strictly increasing timestamps extends the history and leaves
exactly its last-five suffix, ids strictly increasing throughout. -/
theorem trace_main {s : Store} {evs : List UploadEv}
    {created : List Dataset} {s' : Store}
    (h : UploadTrace s evs created s') :
    ∀ H : List Dataset,
      H.Pairwise (fun a b => a.id < b.id) →
      s = lastN 5 H →
      (H ++ created).Pairwise (fun a b => a.uploadedAt < b.uploadedAt) →
      (H ++ created).Pairwise (fun a b => a.id < b.id) ∧
        s' = lastN 5 (H ++ created) := by
  induction h with
  | nil s =>
    intro H hidH hs hts
    rw [List.append_nil]
    exact ⟨hidH, hs⟩
  | consFail e hfail htail ih => exact ih
  | @consOk s ev evs created s' d s1 l hok hord htail ih =>
    intro H hidH hs hts0
    obtain ⟨hdid, hdts, hs1, -⟩ := upload_ingest_ok hok
    have hts := hts0
    rw [List.pairwise_append] at hts
    have hdgtH : ∀ x ∈ H, x.uploadedAt < d.uploadedAt := fun x hx =>
      hts.2.2 x hx d (List.mem_cons_self d _)
    have hsubH : s.Sublist H := by rw [hs]; exact lastN_sublist 5 H
    have hidlt : ∀ x ∈ H, x.id < d.id := by
      intro x hx
      have hAB : H.take (H.length - 5) ++ lastN 5 H = H :=
        List.take_append_drop _ H
      have hx2 : x ∈ H.take (H.length - 5) ++ lastN 5 H := by
        rw [hAB]; exact hx
      rcases List.mem_append.mp hx2 with hxA | hxB
      · have hni : lastN 5 H ≠ [] := by
          have hlen := lastN_length 5 H
          have hHpos : 0 < H.length :=
            List.length_pos.mpr (List.ne_nil_of_mem hx)
          intro hnil
          rw [hnil] at hlen
          simp only [List.length_nil] at hlen
          omega
        obtain ⟨b, hb⟩ := List.exists_mem_of_ne_nil _ hni
        have hxb : x.id < b.id := by
          have hpw := hidH
          rw [← hAB, List.pairwise_append] at hpw
          exact hpw.2.2 x hxA b hb
        have hbs : b ∈ s := by rw [hs]; exact hb
        have hbn := id_lt_nextId hbs
        rw [hdid]; omega
      · have hxs : x ∈ s := by rw [hs]; exact hxB
        rw [hdid]; exact id_lt_nextId hxs
    have htss : s.Pairwise (fun a b => a.uploadedAt < b.uploadedAt) :=
      List.Pairwise.sublist hsubH hts.1
    have hts1 : s1.Pairwise (fun a b => a.uploadedAt < b.uploadedAt) := by
      rw [hs1, List.pairwise_append]
      refine ⟨htss, List.pairwise_singleton _ _, ?_⟩
      intro a ha b hb
      rw [List.mem_singleton.mp hb, hdts]
      have := hdgtH a (hsubH.subset ha)
      rw [hdts] at this
      exact this
    have hids : s.Pairwise (fun a b => a.id < b.id) :=
      List.Pairwise.sublist hsubH hidH
    have hid1 : s1.Pairwise (fun a b => a.id < b.id) := by
      rw [hs1, List.pairwise_append]
      refine ⟨hids, List.pairwise_singleton _ _, ?_⟩
      intro a ha b hb
      rw [List.mem_singleton.mp hb, hdid]
      exact id_lt_nextId ha
    have hclean : cleanup_old_records 5 s1 l = lastN 5 (H ++ [d]) := by
      rw [cleanup_strict hts1 hid1 hord, hs1, hs]
      rw [lastN_append_one (by omega) (lastN 5 H) d,
        lastN_append_one (by omega) H d]
      rw [lastN_lastN_of_le (by omega) H]
    have hidHd : (H ++ [d]).Pairwise (fun a b => a.id < b.id) := by
      rw [List.pairwise_append]
      refine ⟨hidH, List.pairwise_singleton _ _, ?_⟩
      intro a ha b hb
      rw [List.mem_singleton.mp hb]
      exact hidlt a ha
    have htsHd :
        ((H ++ [d]) ++ created).Pairwise
          (fun a b => a.uploadedAt < b.uploadedAt) := by
      rw [List.append_assoc, List.singleton_append]
      exact hts0
    obtain ⟨hidfin, hsfin⟩ := ih (H ++ [d]) hidHd hclean htsHd
    rw [List.append_assoc, List.singleton_append] at hidfin hsfin
    exact ⟨hidfin, hsfin⟩

/-- C3 (amended): after any sequence of uploads with retention cap 5 the
store holds at most 5 datasets; when the created datasets carry strictly
increasing `uploaded_at` timestamps, the store holds exactly the last
five created datasets and every listing compatible with the database
ordering returns them most-recent-first.  (With tied timestamps the
most-recently-inserted guarantee can fail; see the counterexample.) -/
theorem upload_retention {evs : List UploadEv} {created : List Dataset}
    {s' : Store} (htrace : UploadTrace [] evs created s') :
    s'.length ≤ 5 ∧
      (created.Pairwise (fun a b => a.uploadedAt < b.uploadedAt) →
        s' = lastN 5 created ∧
          ∀ l, IsDbOrdering s' l → list_recent 100 l = s'.reverse) := by
  constructor
  · exact (trace_bound htrace (List.Pairwise.nil) (by simp)).2
  · intro hinc
    have hmain := trace_main htrace [] List.Pairwise.nil (by simp [lastN])
      (by simpa using hinc)
    obtain ⟨hids, hfin⟩ := hmain
    rw [List.nil_append] at hids hfin
    refine ⟨hfin, ?_⟩
    intro l hord
    have hts' : s'.Pairwise (fun a b => a.uploadedAt < b.uploadedAt) := by
      rw [hfin]
      exact List.Pairwise.sublist (lastN_sublist 5 created) hinc
    have hl : l = s'.reverse := db_ordering_eq_reverse hts' hord
    have hlen : l.length ≤ 100 := by
      have h5 := (trace_bound htrace (List.Pairwise.nil) (by simp)).2
      have := hord.1.length_eq
      omega
    rw [hl]
    unfold list_recent
    rw [← hl]
    exact List.take_of_length_le hlen

/-- C4: eviction never removes a dataset newer than one it keeps.  For
any database ordering, any two retained datasets A and B with
`A.uploaded_at < B.uploaded_at`, and any dataset the cleanup deleted, the
deleted timestamp does not exceed B's (ids are unique, as primary keys
are). -/
theorem cleanup_no_newer_evicted {store l : List Dataset}
    {A B e : Dataset} (hnd : (store.map Dataset.id).Nodup)
    (hord : IsDbOrdering store l)
    (hA : A ∈ cleanup_old_records 5 store l)
    (hB : B ∈ cleanup_old_records 5 store l)
    (hAB : A.uploadedAt < B.uploadedAt)
    (he : e ∈ store) (hdel : e ∉ cleanup_old_records 5 store l) :
    ¬ B.uploadedAt < e.uploadedAt := by
  by_cases h5 : 5 < store.length
  · have hclean : cleanup_old_records 5 store l =
        store.filter
          (fun d => decide (d.id ∈ (l.take 5).map Dataset.id)) := by
      unfold cleanup_old_records
      rw [if_pos h5]
    rw [hclean] at hA hB hdel
    have hndl : (l.map Dataset.id).Nodup :=
      (hord.1.map Dataset.id).nodup_iff.mp hnd
    have hBl : B ∈ l := hord.1.mem_iff.mp (List.mem_filter.mp hB).1
    have hBid : B.id ∈ (l.take 5).map Dataset.id :=
      of_decide_eq_true (List.mem_filter.mp hB).2
    obtain ⟨k, hk, hkid⟩ := List.mem_map.mp hBid
    have hkl : k ∈ l := (List.take_sublist 5 l).subset hk
    have hkB : k = B := List.inj_on_of_nodup_map hndl hkl hBl hkid
    have hBtake : B ∈ l.take 5 := hkB ▸ hk
    have hel : e ∈ l := hord.1.mem_iff.mp he
    have heid : e.id ∉ (l.take 5).map Dataset.id := by
      intro hmem
      exact hdel (List.mem_filter.mpr ⟨he, decide_eq_true hmem⟩)
    have hedrop : e ∈ l.drop 5 := by
      have := List.take_append_drop 5 l
      rcases List.mem_append.mp (this ▸ hel) with htk | hdr
      · exact absurd (List.mem_map_of_mem Dataset.id htk) heid
      · exact hdr
    have hpw := hord.2
    rw [← List.take_append_drop 5 l, List.pairwise_append] at hpw
    have := hpw.2.2 B hBtake e hedrop
    omega
  · have hclean : cleanup_old_records 5 store l = store := by
      unfold cleanup_old_records
      rw [if_neg h5]
    rw [hclean] at hdel
    exact absurd he hdel

/-- C4 witness: a concrete six-row table ordered newest-first, in which
dataset 1 is evicted while datasets 2 and 6 are retained; the evicted
timestamp indeed does not exceed the retained one. -/
theorem cleanup_no_newer_evicted_witness :
    ((c4Store.map Dataset.id).Nodup ∧
      IsDbOrdering c4Store c4Store.reverse ∧
      dsAt 2 20 ∈ cleanup_old_records 5 c4Store c4Store.reverse ∧
      dsAt 6 60 ∈ cleanup_old_records 5 c4Store c4Store.reverse ∧
      (dsAt 2 20).uploadedAt < (dsAt 6 60).uploadedAt ∧
      dsAt 1 10 ∈ c4Store ∧
      dsAt 1 10 ∉ cleanup_old_records 5 c4Store c4Store.reverse) ∧
    ¬ (dsAt 6 60).uploadedAt < (dsAt 1 10).uploadedAt := by
  have h1 : (c4Store.map Dataset.id).Nodup := by decide
  have h2 : IsDbOrdering c4Store c4Store.reverse :=
    ⟨by decide, by decide⟩
  have h3 : dsAt 2 20 ∈ cleanup_old_records 5 c4Store c4Store.reverse := by
    with_unfolding_all decide
  have h4 : dsAt 6 60 ∈ cleanup_old_records 5 c4Store c4Store.reverse := by
    with_unfolding_all decide
  have h5 : (dsAt 2 20).uploadedAt < (dsAt 6 60).uploadedAt := by decide
  have h6 : dsAt 1 10 ∈ c4Store := by decide
  have h7 : dsAt 1 10 ∉ cleanup_old_records 5 c4Store c4Store.reverse := by
    with_unfolding_all decide
  exact ⟨⟨h1, h2, h3, h4, h5, h6, h7⟩,
    cleanup_no_newer_evicted h1 h2 h3 h4 h5 h6 h7⟩

/-- C6: on an empty clean record set `calculate_summary` is total (the
model is a function, mirroring that the Python code raises nothing
there), reports `total_count = 0`, and all four numeric aggregate maps
hold the NaN sentinel (`none`) for flowrate, pressure and temperature. -/
theorem calculate_summary_empty_defined :
    calculate_summary [] =
      { total_count := 0
        averages := ⟨none, none, none⟩
        minimums := ⟨none, none, none⟩
        maximums := ⟨none, none, none⟩
        std_deviations := ⟨none, none, none⟩
        type_distribution := []
        equipment_types := [] } := by
  with_unfolding_all decide

/-- C10: for every single-record clean set the standard deviations are
the NaN sentinel (`none`), because pandas computes the sample standard
deviation with denominator `n - 1`, which is `0 / 0` for one value. -/
theorem std_single_record_undefined (r : Record) :
    (calculate_summary [r]).std_deviations = ⟨none, none, none⟩ := by
  have h : ∀ f : Record → Option ℚ, stdAgg [r] f = none := by
    intro f
    unfold stdAgg colVals
    cases hf : f r <;> simp [List.filterMap_cons, hf]
  show FieldStats.mk (stdAgg [r] Record.flowrate)
      (stdAgg [r] Record.pressure) (stdAgg [r] Record.temperature) =
      ⟨none, none, none⟩
  rw [h, h, h]

/-- C1 (evidence for the code bug): the row of `c1Csv` whose flowrate
does not parse as a number is not dropped by `parse_csv_data`; it is kept
in the clean output with a NaN flowrate, contradicting the invariant that
every stored record has three finite numeric fields.  The cause is the
source order of `dropna` before `to_numeric(errors = coerce)`. -/
theorem parse_keeps_unparseable_flowrate :
    parse_csv_data (.text c1Csv) =
      .ok [{ name := "Pump1", type := "Pump", flowrate := none,
             pressure := some 2, temperature := some 25 }] := by
  with_unfolding_all decide

/-- C2: when a required column is absent from the header,
`parse_csv_data` raises the missing-columns `ValueError`, and a single
`upload_csv` request carrying that content creates no dataset and leaves
the store unchanged. -/
theorem upload_missing_column_rejected {fc : FileContent} {s : String}
    {f : Frame} {c : String} (hdec : decodeContent fc = .ok s)
    (hread : read_csv s = .ok f) (hc : c ∈ requiredColumns)
    (hmiss : f.header.contains c = false) :
    (∃ cols, cols ≠ [] ∧
      parse_csv_data fc = .error (.missingColumns cols)) ∧
    ∀ (store s' : Store) (ev : UploadEv) (created : List Dataset),
      ev.content = fc → UploadTrace store [ev] created s' →
      created = [] ∧ s' = store := by
  have hmem : c ∈ requiredColumns.filter (fun x => ! f.header.contains x) :=
    List.mem_filter.mpr ⟨hc, by rw [hmiss]; rfl⟩
  have hne : requiredColumns.filter (fun x => ! f.header.contains x) ≠ [] :=
    List.ne_nil_of_mem hmem
  have hparse : parse_csv_data fc =
      .error (.missingColumns
        (requiredColumns.filter (fun x => ! f.header.contains x))) := by
    unfold parse_csv_data
    rw [hdec]
    show parseCsvText s = _
    unfold parseCsvText
    rw [hread]
    show validateAndClean f = _
    unfold validateAndClean
    rw [if_pos hne]
  refine ⟨⟨_, hne, hparse⟩, ?_⟩
  intro store s' ev created hev htrace
  cases htrace with
  | consFail e hfail htail =>
    cases htail
    exact ⟨rfl, rfl⟩
  | consOk d s1 l hok hord htail =>
    obtain ⟨-, -, -, records, hrec, -⟩ := upload_ingest_ok hok
    rw [hev, hparse] at hrec
    cases hrec

/-- C2 witness: a concrete CSV lacking the Pressure column is rejected
with the missing-columns error and a concrete upload of it leaves a
concrete store unchanged with nothing created. -/
theorem upload_missing_column_rejected_witness :
    (∃ cols, cols ≠ [] ∧
      parse_csv_data (.text c2Csv) = .error (.missingColumns cols)) ∧
    ∀ (created : List Dataset) (s' : Store),
      UploadTrace c7Store [c2Ev] created s' →
      created = [] ∧ s' = c7Store := by
  have h := @upload_missing_column_rejected (.text c2Csv) c2Csv c2Frame
    "Pressure" (by with_unfolding_all decide) (by with_unfolding_all decide)
    (by decide) (by decide)
  exact ⟨h.1, fun created s' htr => h.2 c7Store s' c2Ev created rfl htr⟩

/-- C5: for a well-formed upload whose content parses to at least one
clean record, the created dataset carries `record_count` equal to the
number of records surviving validation and a stored summary whose
`total_count` equals that `record_count`. -/
theorem upload_record_count_consistent {store : Store} {ev : UploadEv}
    {records : List Record}
    (hcsv : pyEndsWith ev.filename ".csv" = true)
    (hparse : parse_csv_data ev.content = .ok records)
    (hne : records ≠ []) :
    ∃ ds s1, upload_ingest store ev = .ok (ds, s1) ∧
      ds.record_count = records.length ∧
      ds.summary.total_count = records.length ∧
      ds.summary.total_count = ds.record_count := by
  refine ⟨⟨nextId store, ev.filename, ev.now, records,
      calculate_summary records, records.length⟩,
    store ++ [⟨nextId store, ev.filename, ev.now, records,
      calculate_summary records, records.length⟩], ?_, rfl, rfl, rfl⟩
  simp only [upload_ingest, hcsv, hparse]
  rfl

/-- C5 witness: uploading the two-row example CSV creates a dataset with
`record_count = 2` and `summary.total_count = 2`. -/
theorem upload_record_count_consistent_witness :
    ∃ ds s1, upload_ingest [] c5Ev = .ok (ds, s1) ∧
      ds.record_count = c5Records.length ∧
      ds.summary.total_count = c5Records.length ∧
      ds.summary.total_count = ds.record_count :=
  @upload_record_count_consistent [] c5Ev c5Records
    (by decide) (by with_unfolding_all decide) (by decide)

/-- C7: deleting a present id removes it and reports success; deleting
the same id again reports not-found and leaves the store exactly as the
first deletion left it. -/
theorem delete_twice {store : Store} {pk : Nat}
    (hmem : ∃ d ∈ store, d.id = pk) :
    ∃ s1, delete_dataset store pk = (.deleted, s1) ∧
      (∀ d ∈ s1, d.id ≠ pk) ∧
      delete_dataset s1 pk = (.notFound, s1) := by
  obtain ⟨d0, hd0, hid0⟩ := hmem
  have hfind : (store.find? (fun d => d.id == pk)).isSome := by
    rw [List.find?_isSome]
    exact ⟨d0, hd0, by simp [hid0]⟩
  obtain ⟨dfound, hdfound⟩ := Option.isSome_iff_exists.mp hfind
  refine ⟨store.filter (fun d => d.id != pk), ?_, ?_, ?_⟩
  · unfold delete_dataset
    rw [hdfound]
  · intro d hd
    have := (List.mem_filter.mp hd).2
    simpa using this
  · unfold delete_dataset
    have hnone :
        (store.filter (fun d => d.id != pk)).find? (fun d => d.id == pk) =
          none := by
      rw [List.find?_eq_none]
      intro x hx
      have := (List.mem_filter.mp hx).2
      simpa using this
    rw [hnone]

/-- C7 witness: in a concrete two-dataset store, deleting id 2 succeeds
and removes it, and the repeated deletion reports not-found while
changing nothing. -/
theorem delete_twice_witness :
    ∃ s1, delete_dataset c7Store 2 = (.deleted, s1) ∧
      (∀ d ∈ s1, d.id ≠ 2) ∧
      delete_dataset s1 2 = (.notFound, s1) :=
  delete_twice ⟨dsAt 2 20, by decide, by decide⟩

/-- C8 counterexample: the text fields are not whitespace-trimmed.  The
record parsed from `c8Csv` keeps the name cell verbatim, with its leading
and trailing space still in place, so the stored name is not a trimmed
string. -/
theorem parse_does_not_trim_text :
    parse_csv_data (.text c8Csv) =
      .ok [{ name := " Pump1 ", type := "Pump", flowrate := some 10,
             pressure := some 2, temperature := some 25 }] ∧
    (" Pump1 " : String).data.head? = some ' ' ∧
    (" Pump1 " : String).data.getLast? = some ' ' :=
  ⟨by with_unfolding_all decide, by decide, by decide⟩

/-- C8 (amended): the clean record sequence keeps the original relative
source-row order (its name column is an order-preserving subsequence of
the raw rows' name cells), and every record carries its text cells
verbatim as they appear in the CSV, not whitespace-trimmed. -/
theorem parse_order_preserved_text_verbatim {fc : FileContent}
    {s : String} {f : Frame} {recs : List Record}
    (hdec : decodeContent fc = .ok s) (hread : read_csv s = .ok f)
    (hparse : parse_csv_data fc = .ok recs) :
    (recs.map Record.name).Sublist
      (f.rows.map (fun row => (getCol f.header row "Equipment Name").getD "")) ∧
    ∀ r ∈ recs, ∃ row ∈ f.rows, rowComplete f.header row = true ∧
      r.name = (getCol f.header row "Equipment Name").getD "" ∧
      r.type = (getCol f.header row "Type").getD "" := by
  have h0 : parse_csv_data fc = validateAndClean f := by
    unfold parse_csv_data
    rw [hdec]
    show parseCsvText s = _
    unfold parseCsvText
    rw [hread]
  rw [h0] at hparse
  unfold validateAndClean at hparse
  by_cases hm : requiredColumns.filter (fun c => ! f.header.contains c) ≠ []
  · rw [if_pos hm] at hparse
    cases hparse
  · rw [if_neg hm] at hparse
    injection hparse with hrecs
    subst hrecs
    constructor
    · rw [List.map_map]
      exact List.Sublist.map _ (List.filter_sublist f.rows)
    · intro r hr
      obtain ⟨row, hrow, hreq⟩ := List.mem_map.mp hr
      obtain ⟨hrowmem, hcomp⟩ := List.mem_filter.mp hrow
      exact ⟨row, hrowmem, hcomp, by rw [← hreq]; rfl, by rw [← hreq]; rfl⟩

/-- C8 amended-claim witness: for the concrete padded-name CSV the clean
sequence is an ordered subsequence of the raw name cells and the text
cells come through verbatim. -/
theorem parse_order_preserved_text_verbatim_witness :
    (([⟨" Pump1 ", "Pump", some 10, some 2, some 25⟩] :
        List Record).map Record.name).Sublist
      (c8Frame.rows.map
        (fun row => (getCol c8Frame.header row "Equipment Name").getD "")) ∧
    ∀ r ∈ ([⟨" Pump1 ", "Pump", some 10, some 2, some 25⟩] : List Record),
      ∃ row ∈ c8Frame.rows, rowComplete c8Frame.header row = true ∧
        r.name = (getCol c8Frame.header row "Equipment Name").getD "" ∧
        r.type = (getCol c8Frame.header row "Type").getD "" :=
  @parse_order_preserved_text_verbatim (.text c8Csv) c8Csv c8Frame
    [⟨" Pump1 ", "Pump", some 10, some 2, some 25⟩]
    (by with_unfolding_all decide) (by with_unfolding_all decide)
    (by with_unfolding_all decide)

/-- The UTF-8 encoding of a character is never empty. -/
theorem utf8EncodeCharBytes_ne_nil (c : Char) :
    utf8EncodeCharBytes c ≠ [] := by
  simp only [utf8EncodeCharBytes]
  split
  · simp
  · split
    · simp
    · split <;> simp

/-- One decode step on the UTF-8 bytes of a character prefixed to a byte
stream reads back exactly that character and leaves the stream. -/
theorem utf8DecodeStep_encodeChar (c : Char) (t : List Nat) :
    utf8DecodeStep (utf8EncodeCharBytes c ++ t) = some (c, t) := by
  have hv : c.toNat < 0xd800 ∨ (0xdfff < c.toNat ∧ c.toNat < 0x110000) :=
    c.valid
  set v := c.toNat with hvv
  by_cases h1 : v < 0x80
  · have he : utf8EncodeCharBytes c = [v] := by
      unfold utf8EncodeCharBytes
      rw [← hvv, if_pos h1]
    rw [he]
    show (if v < 0x80 then some (Char.ofNat v, t)
      else if v < 0xC2 then none
      else if v < 0xE0 then _
      else if v < 0xF0 then _
      else if v < 0xF5 then _
      else none) = some (c, t)
    rw [if_pos h1, hvv, Char.ofNat_toNat]
  · by_cases h2 : v < 0x800
    · have he : utf8EncodeCharBytes c =
          [0xC0 + v / 0x40, 0x80 + v % 0x40] := by
        unfold utf8EncodeCharBytes
        rw [← hvv, if_neg h1, if_pos h2]
      rw [he]
      show (if 0xC0 + v / 0x40 < 0x80 then
          some (Char.ofNat (0xC0 + v / 0x40), (0x80 + v % 0x40) :: t)
        else if 0xC0 + v / 0x40 < 0xC2 then none
        else if 0xC0 + v / 0x40 < 0xE0 then
          if 0x80 ≤ 0x80 + v % 0x40 ∧ 0x80 + v % 0x40 < 0xC0 then
            some (Char.ofNat ((0xC0 + v / 0x40 - 0xC0) * 0x40 +
              (0x80 + v % 0x40 - 0x80)), t)
          else none
        else if 0xC0 + v / 0x40 < 0xF0 then _
        else if 0xC0 + v / 0x40 < 0xF5 then _
        else none) = some (c, t)
      rw [if_neg (by omega : ¬ (0xC0 + v / 0x40 < 0x80)),
        if_neg (by omega : ¬ (0xC0 + v / 0x40 < 0xC2)),
        if_pos (by omega : 0xC0 + v / 0x40 < 0xE0),
        if_pos (by omega : 0x80 ≤ 0x80 + v % 0x40 ∧ 0x80 + v % 0x40 < 0xC0)]
      have harith :
          (0xC0 + v / 0x40 - 0xC0) * 0x40 + (0x80 + v % 0x40 - 0x80) = v := by
        omega
      rw [harith, hvv, Char.ofNat_toNat]
    · by_cases h3 : v < 0x10000
      · have he : utf8EncodeCharBytes c =
            [0xE0 + v / 0x1000, 0x80 + v / 0x40 % 0x40, 0x80 + v % 0x40] := by
          unfold utf8EncodeCharBytes
          rw [← hvv, if_neg h1, if_neg h2, if_pos h3]
        rw [he]
        show (if 0xE0 + v / 0x1000 < 0x80 then
            some (Char.ofNat (0xE0 + v / 0x1000),
              (0x80 + v / 0x40 % 0x40) :: (0x80 + v % 0x40) :: t)
          else if 0xE0 + v / 0x1000 < 0xC2 then none
          else if 0xE0 + v / 0x1000 < 0xE0 then
            if 0x80 ≤ 0x80 + v / 0x40 % 0x40 ∧
                0x80 + v / 0x40 % 0x40 < 0xC0 then
              some (Char.ofNat ((0xE0 + v / 0x1000 - 0xC0) * 0x40 +
                (0x80 + v / 0x40 % 0x40 - 0x80)), (0x80 + v % 0x40) :: t)
            else none
          else if 0xE0 + v / 0x1000 < 0xF0 then
            if 0x80 ≤ 0x80 + v / 0x40 % 0x40 ∧
                0x80 + v / 0x40 % 0x40 < 0xC0 ∧
                0x80 ≤ 0x80 + v % 0x40 ∧ 0x80 + v % 0x40 < 0xC0 then
              if 0x800 ≤ (0xE0 + v / 0x1000 - 0xE0) * 0x1000 +
                  (0x80 + v / 0x40 % 0x40 - 0x80) * 0x40 +
                  (0x80 + v % 0x40 - 0x80) ∧
                  ¬ (0xD800 ≤ (0xE0 + v / 0x1000 - 0xE0) * 0x1000 +
                      (0x80 + v / 0x40 % 0x40 - 0x80) * 0x40 +
                      (0x80 + v % 0x40 - 0x80) ∧
                    (0xE0 + v / 0x1000 - 0xE0) * 0x1000 +
                      (0x80 + v / 0x40 % 0x40 - 0x80) * 0x40 +
                      (0x80 + v % 0x40 - 0x80) < 0xE000) then
                some (Char.ofNat ((0xE0 + v / 0x1000 - 0xE0) * 0x1000 +
                  (0x80 + v / 0x40 % 0x40 - 0x80) * 0x40 +
                  (0x80 + v % 0x40 - 0x80)), t)
              else none
            else none
          else if 0xE0 + v / 0x1000 < 0xF5 then _
          else none) = some (c, t)
        have harith :
            (0xE0 + v / 0x1000 - 0xE0) * 0x1000 +
              (0x80 + v / 0x40 % 0x40 - 0x80) * 0x40 +
              (0x80 + v % 0x40 - 0x80) = v := by
          omega
        rw [if_neg (by omega : ¬ (0xE0 + v / 0x1000 < 0x80)),
          if_neg (by omega : ¬ (0xE0 + v / 0x1000 < 0xC2)),
          if_neg (by omega : ¬ (0xE0 + v / 0x1000 < 0xE0)),
          if_pos (by omega : 0xE0 + v / 0x1000 < 0xF0),
          if_pos (by omega : 0x80 ≤ 0x80 + v / 0x40 % 0x40 ∧
            0x80 + v / 0x40 % 0x40 < 0xC0 ∧
            0x80 ≤ 0x80 + v % 0x40 ∧ 0x80 + v % 0x40 < 0xC0),
          harith,
          if_pos (by omega : 0x800 ≤ v ∧ ¬ (0xD800 ≤ v ∧ v < 0xE000)),
          hvv, Char.ofNat_toNat]
      · have he : utf8EncodeCharBytes c =
            [0xF0 + v / 0x40000, 0x80 + v / 0x1000 % 0x40,
              0x80 + v / 0x40 % 0x40, 0x80 + v % 0x40] := by
          unfold utf8EncodeCharBytes
          rw [← hvv, if_neg h1, if_neg h2, if_neg h3]
        have hub : v < 0x110000 := by omega
        rw [he]
        show (if 0xF0 + v / 0x40000 < 0x80 then
            some (Char.ofNat (0xF0 + v / 0x40000),
              (0x80 + v / 0x1000 % 0x40) :: (0x80 + v / 0x40 % 0x40) ::
                (0x80 + v % 0x40) :: t)
          else if 0xF0 + v / 0x40000 < 0xC2 then none
          else if 0xF0 + v / 0x40000 < 0xE0 then
            if 0x80 ≤ 0x80 + v / 0x1000 % 0x40 ∧
                0x80 + v / 0x1000 % 0x40 < 0xC0 then
              some (Char.ofNat ((0xF0 + v / 0x40000 - 0xC0) * 0x40 +
                (0x80 + v / 0x1000 % 0x40 - 0x80)),
                (0x80 + v / 0x40 % 0x40) :: (0x80 + v % 0x40) :: t)
            else none
          else if 0xF0 + v / 0x40000 < 0xF0 then
            if 0x80 ≤ 0x80 + v / 0x1000 % 0x40 ∧
                0x80 + v / 0x1000 % 0x40 < 0xC0 ∧
                0x80 ≤ 0x80 + v / 0x40 % 0x40 ∧
                0x80 + v / 0x40 % 0x40 < 0xC0 then
              if 0x800 ≤ (0xF0 + v / 0x40000 - 0xE0) * 0x1000 +
                  (0x80 + v / 0x1000 % 0x40 - 0x80) * 0x40 +
                  (0x80 + v / 0x40 % 0x40 - 0x80) ∧
                  ¬ (0xD800 ≤ (0xF0 + v / 0x40000 - 0xE0) * 0x1000 +
                      (0x80 + v / 0x1000 % 0x40 - 0x80) * 0x40 +
                      (0x80 + v / 0x40 % 0x40 - 0x80) ∧
                    (0xF0 + v / 0x40000 - 0xE0) * 0x1000 +
                      (0x80 + v / 0x1000 % 0x40 - 0x80) * 0x40 +
                      (0x80 + v / 0x40 % 0x40 - 0x80) < 0xE000) then
                some (Char.ofNat ((0xF0 + v / 0x40000 - 0xE0) * 0x1000 +
                  (0x80 + v / 0x1000 % 0x40 - 0x80) * 0x40 +
                  (0x80 + v / 0x40 % 0x40 - 0x80)), (0x80 + v % 0x40) :: t)
              else none
            else none
          else if 0xF0 + v / 0x40000 < 0xF5 then
            if 0x80 ≤ 0x80 + v / 0x1000 % 0x40 ∧
                0x80 + v / 0x1000 % 0x40 < 0xC0 ∧
                0x80 ≤ 0x80 + v / 0x40 % 0x40 ∧
                0x80 + v / 0x40 % 0x40 < 0xC0 ∧
                0x80 ≤ 0x80 + v % 0x40 ∧ 0x80 + v % 0x40 < 0xC0 then
              if 0x10000 ≤ (0xF0 + v / 0x40000 - 0xF0) * 0x40000 +
                  (0x80 + v / 0x1000 % 0x40 - 0x80) * 0x1000 +
                  (0x80 + v / 0x40 % 0x40 - 0x80) * 0x40 +
                  (0x80 + v % 0x40 - 0x80) ∧
                  (0xF0 + v / 0x40000 - 0xF0) * 0x40000 +
                    (0x80 + v / 0x1000 % 0x40 - 0x80) * 0x1000 +
                    (0x80 + v / 0x40 % 0x40 - 0x80) * 0x40 +
                    (0x80 + v % 0x40 - 0x80) < 0x110000 then
                some (Char.ofNat ((0xF0 + v / 0x40000 - 0xF0) * 0x40000 +
                  (0x80 + v / 0x1000 % 0x40 - 0x80) * 0x1000 +
                  (0x80 + v / 0x40 % 0x40 - 0x80) * 0x40 +
                  (0x80 + v % 0x40 - 0x80)), t)
              else none
            else none
          else none) = some (c, t)
        have harith :
            (0xF0 + v / 0x40000 - 0xF0) * 0x40000 +
              (0x80 + v / 0x1000 % 0x40 - 0x80) * 0x1000 +
              (0x80 + v / 0x40 % 0x40 - 0x80) * 0x40 +
              (0x80 + v % 0x40 - 0x80) = v := by
          omega
        rw [if_neg (by omega : ¬ (0xF0 + v / 0x40000 < 0x80)),
          if_neg (by omega : ¬ (0xF0 + v / 0x40000 < 0xC2)),
          if_neg (by omega : ¬ (0xF0 + v / 0x40000 < 0xE0)),
          if_neg (by omega : ¬ (0xF0 + v / 0x40000 < 0xF0)),
          if_pos (by omega : 0xF0 + v / 0x40000 < 0xF5),
          if_pos (by omega : 0x80 ≤ 0x80 + v / 0x1000 % 0x40 ∧
            0x80 + v / 0x1000 % 0x40 < 0xC0 ∧
            0x80 ≤ 0x80 + v / 0x40 % 0x40 ∧
            0x80 + v / 0x40 % 0x40 < 0xC0 ∧
            0x80 ≤ 0x80 + v % 0x40 ∧ 0x80 + v % 0x40 < 0xC0),
          harith,
          if_pos (by omega : 0x10000 ≤ v ∧ v < 0x110000),
          hvv, Char.ofNat_toNat]

set_option maxRecDepth 10000 in
/-- A successful decode step consumes at least one byte. -/
theorem utf8DecodeStep_length {l : List Nat} {c : Char} {rest : List Nat}
    (h : utf8DecodeStep l = some (c, rest)) : rest.length < l.length := by
  unfold utf8DecodeStep at h
  repeat' split at h
  all_goals try (injection h with h1; cases h1; simp only [List.length_cons]; omega)
  all_goals exact Option.noConfusion h

/-- The fuel does not matter once it covers the list length. -/
theorem utf8DecodeAux_fuel :
    ∀ (f1 f2 : Nat) (l : List Nat), l.length ≤ f1 → l.length ≤ f2 →
      utf8DecodeAux f1 l = utf8DecodeAux f2 l := by
  intro f1
  induction f1 with
  | zero =>
    intro f2 l h1 h2
    cases l with
    | nil =>
      cases f2 <;> rfl
    | cons b bs => simp at h1
  | succ f1 ih =>
    intro f2 l h1 h2
    cases l with
    | nil => cases f2 <;> rfl
    | cons b bs =>
      cases f2 with
      | zero => simp at h2
      | succ f2 =>
        show (match utf8DecodeStep (b :: bs) with
          | none => none
          | some (c, rest) =>
            (utf8DecodeAux f1 rest).map (fun cs => c :: cs)) =
          (match utf8DecodeStep (b :: bs) with
          | none => none
          | some (c, rest) =>
            (utf8DecodeAux f2 rest).map (fun cs => c :: cs))
        cases hstep : utf8DecodeStep (b :: bs) with
        | none => rfl
        | some p =>
          obtain ⟨c, rest⟩ := p
          have hlt : rest.length < (b :: bs).length :=
            utf8DecodeStep_length hstep
          simp only [List.length_cons] at hlt h1 h2
          show (utf8DecodeAux f1 rest).map (fun cs => c :: cs) =
            (utf8DecodeAux f2 rest).map (fun cs => c :: cs)
          rw [ih f2 rest (by omega) (by omega)]

/-- Decoding the UTF-8 bytes of one character at the front of a byte
stream yields that character at the front of the decoded stream. -/
theorem utf8DecodeChars_encodeChar (c : Char) (t : List Nat) :
    utf8DecodeChars (utf8EncodeCharBytes c ++ t) =
      (utf8DecodeChars t).map (fun cs => c :: cs) := by
  have hstep := utf8DecodeStep_encodeChar c t
  obtain ⟨e0, erest, he⟩ : ∃ e0 erest,
      utf8EncodeCharBytes c = e0 :: erest := by
    cases hE : utf8EncodeCharBytes c with
    | nil => exact absurd hE (utf8EncodeCharBytes_ne_nil c)
    | cons a b => exact ⟨a, b, rfl⟩
  rw [he, List.cons_append] at hstep
  rw [he]
  show utf8DecodeAux ((e0 :: (erest ++ t)).length) (e0 :: (erest ++ t)) =
    (utf8DecodeChars t).map (fun cs => c :: cs)
  show (match utf8DecodeStep (e0 :: (erest ++ t)) with
    | none => none
    | some (c, rest) =>
      (utf8DecodeAux (erest ++ t).length rest).map (fun cs => c :: cs)) =
    (utf8DecodeChars t).map (fun cs => c :: cs)
  rw [hstep]
  show (utf8DecodeAux (erest ++ t).length t).map (fun cs => c :: cs) = _
  rw [utf8DecodeAux_fuel (erest ++ t).length t.length t
    (by simp) (Nat.le_refl _)]
  rfl

/-- UTF-8 decoding inverts UTF-8 encoding on every string. -/
theorem utf8Decode_utf8Encode (s : String) :
    utf8Decode (utf8Encode s) = some s := by
  have h : ∀ cs : List Char,
      utf8DecodeChars (cs.flatMap utf8EncodeCharBytes) = some cs := by
    intro cs
    induction cs with
    | nil => rfl
    | cons c cs ih =>
      rw [List.flatMap_cons, utf8DecodeChars_encodeChar, ih]
      rfl
  unfold utf8Decode utf8Encode
  rw [h s.data]
  rfl

/-- C9: `parse_csv_data` applied to the UTF-8 encoding of a text input
returns exactly what it returns on the text itself — byte uploads and
text inputs are interchangeable. -/
theorem parse_bytes_eq_parse_text (s : String) :
    parse_csv_data (.bytes (utf8Encode s)) = parse_csv_data (.text s) := by
  have hdec : decodeContent (.bytes (utf8Encode s)) = .ok s := by
    show (match utf8Decode (utf8Encode s) with
      | some s => Except.ok s
      | none => Except.error ParseError.unicodeDecodeError) = Except.ok s
    rw [utf8Decode_utf8Encode]
  unfold parse_csv_data
  rw [hdec]
  rfl

/-- C3 counterexample: with six uploads all stamped at the same instant
(possible under `auto_now_add` timestamps), one run of the system evicts
the sixth and most recently inserted dataset while keeping the first, so
the retained five are not the five most-recently-inserted ones.  The run
uses a database ordering that is fully compatible with
`ordering = [-uploaded_at]`, since all timestamps tie. -/
theorem retention_tie_counterexample :
    UploadTrace [] c3Events c3Created c3Final ∧
    c3Final ≠ lastN 5 c3Created ∧
    tieDs 6 ∈ c3Created ∧ tieDs 6 ∉ c3Final ∧ tieDs 1 ∈ c3Final := by
  refine ⟨?_, by with_unfolding_all decide, by with_unfolding_all decide,
    by with_unfolding_all decide, by with_unfolding_all decide⟩
  show UploadTrace []
    (tieEv :: tieEv :: tieEv :: tieEv :: tieEv :: tieEv :: [])
    (tieDs 1 :: tieDs 2 :: tieDs 3 :: tieDs 4 :: tieDs 5 :: tieDs 6 :: [])
    c3Final
  refine .consOk (tieDs 1) [tieDs 1] [tieDs 1]
    (by with_unfolding_all decide) ⟨.refl _, by decide⟩ ?_
  rw [show cleanup_old_records 5 [tieDs 1] [tieDs 1] = [tieDs 1] from by
    with_unfolding_all decide]
  refine .consOk (tieDs 2) [tieDs 1, tieDs 2] [tieDs 1, tieDs 2]
    (by with_unfolding_all decide) ⟨.refl _, by decide⟩ ?_
  rw [show cleanup_old_records 5 [tieDs 1, tieDs 2] [tieDs 1, tieDs 2] =
      [tieDs 1, tieDs 2] from by with_unfolding_all decide]
  refine .consOk (tieDs 3) [tieDs 1, tieDs 2, tieDs 3]
    [tieDs 1, tieDs 2, tieDs 3]
    (by with_unfolding_all decide) ⟨.refl _, by decide⟩ ?_
  rw [show cleanup_old_records 5 [tieDs 1, tieDs 2, tieDs 3]
      [tieDs 1, tieDs 2, tieDs 3] = [tieDs 1, tieDs 2, tieDs 3] from by
    with_unfolding_all decide]
  refine .consOk (tieDs 4) [tieDs 1, tieDs 2, tieDs 3, tieDs 4]
    [tieDs 1, tieDs 2, tieDs 3, tieDs 4]
    (by with_unfolding_all decide) ⟨.refl _, by decide⟩ ?_
  rw [show cleanup_old_records 5 [tieDs 1, tieDs 2, tieDs 3, tieDs 4]
      [tieDs 1, tieDs 2, tieDs 3, tieDs 4] =
      [tieDs 1, tieDs 2, tieDs 3, tieDs 4] from by with_unfolding_all decide]
  refine .consOk (tieDs 5) [tieDs 1, tieDs 2, tieDs 3, tieDs 4, tieDs 5]
    [tieDs 1, tieDs 2, tieDs 3, tieDs 4, tieDs 5]
    (by with_unfolding_all decide) ⟨.refl _, by decide⟩ ?_
  rw [show cleanup_old_records 5
      [tieDs 1, tieDs 2, tieDs 3, tieDs 4, tieDs 5]
      [tieDs 1, tieDs 2, tieDs 3, tieDs 4, tieDs 5] =
      [tieDs 1, tieDs 2, tieDs 3, tieDs 4, tieDs 5] from by
    with_unfolding_all decide]
  refine .consOk (tieDs 6)
    [tieDs 1, tieDs 2, tieDs 3, tieDs 4, tieDs 5, tieDs 6]
    [tieDs 1, tieDs 2, tieDs 3, tieDs 4, tieDs 5, tieDs 6]
    (by with_unfolding_all decide) ⟨.refl _, by decide⟩ ?_
  rw [show cleanup_old_records 5
      [tieDs 1, tieDs 2, tieDs 3, tieDs 4, tieDs 5, tieDs 6]
      [tieDs 1, tieDs 2, tieDs 3, tieDs 4, tieDs 5, tieDs 6] = c3Final from
    by with_unfolding_all decide]
  exact .nil c3Final

/-- C3 witness: six uploads at strictly increasing timestamps leave
exactly the five most recent datasets, and any compatible listing returns
them most-recent-first. -/
theorem upload_retention_witness :
    c3wFinal = lastN 5 c3wCreated ∧
      ∀ l, IsDbOrdering c3wFinal l →
        list_recent 100 l = c3wFinal.reverse := by
  have htr : UploadTrace [] c3wEvents c3wCreated c3wFinal := by
    show UploadTrace []
      (incEv 1 :: incEv 2 :: incEv 3 :: incEv 4 :: incEv 5 :: incEv 6 :: [])
      (incDs 1 :: incDs 2 :: incDs 3 :: incDs 4 :: incDs 5 :: incDs 6 :: [])
      c3wFinal
    refine .consOk (incDs 1) [incDs 1] [incDs 1]
      (by with_unfolding_all decide) ⟨.refl _, by decide⟩ ?_
    rw [show cleanup_old_records 5 [incDs 1] [incDs 1] = [incDs 1] from by
      with_unfolding_all decide]
    refine .consOk (incDs 2) [incDs 1, incDs 2] [incDs 2, incDs 1]
      (by with_unfolding_all decide)
      ⟨by with_unfolding_all decide, by decide⟩ ?_
    rw [show cleanup_old_records 5 [incDs 1, incDs 2] [incDs 2, incDs 1] =
        [incDs 1, incDs 2] from by with_unfolding_all decide]
    refine .consOk (incDs 3) [incDs 1, incDs 2, incDs 3]
      [incDs 3, incDs 2, incDs 1]
      (by with_unfolding_all decide)
      ⟨by with_unfolding_all decide, by decide⟩ ?_
    rw [show cleanup_old_records 5 [incDs 1, incDs 2, incDs 3]
        [incDs 3, incDs 2, incDs 1] = [incDs 1, incDs 2, incDs 3] from by
      with_unfolding_all decide]
    refine .consOk (incDs 4) [incDs 1, incDs 2, incDs 3, incDs 4]
      [incDs 4, incDs 3, incDs 2, incDs 1]
      (by with_unfolding_all decide)
      ⟨by with_unfolding_all decide, by decide⟩ ?_
    rw [show cleanup_old_records 5 [incDs 1, incDs 2, incDs 3, incDs 4]
        [incDs 4, incDs 3, incDs 2, incDs 1] =
        [incDs 1, incDs 2, incDs 3, incDs 4] from by
      with_unfolding_all decide]
    refine .consOk (incDs 5) [incDs 1, incDs 2, incDs 3, incDs 4, incDs 5]
      [incDs 5, incDs 4, incDs 3, incDs 2, incDs 1]
      (by with_unfolding_all decide)
      ⟨by with_unfolding_all decide, by decide⟩ ?_
    rw [show cleanup_old_records 5
        [incDs 1, incDs 2, incDs 3, incDs 4, incDs 5]
        [incDs 5, incDs 4, incDs 3, incDs 2, incDs 1] =
        [incDs 1, incDs 2, incDs 3, incDs 4, incDs 5] from by
      with_unfolding_all decide]
    refine .consOk (incDs 6)
      [incDs 1, incDs 2, incDs 3, incDs 4, incDs 5, incDs 6]
      [incDs 6, incDs 5, incDs 4, incDs 3, incDs 2, incDs 1]
      (by with_unfolding_all decide)
      ⟨by with_unfolding_all decide, by decide⟩ ?_
    rw [show cleanup_old_records 5
        [incDs 1, incDs 2, incDs 3, incDs 4, incDs 5, incDs 6]
        [incDs 6, incDs 5, incDs 4, incDs 3, incDs 2, incDs 1] =
        c3wFinal from by with_unfolding_all decide]
    exact .nil c3wFinal
  exact (upload_retention htr).2 (by decide)

end Fossee
